import Mathlib

/-!
Shallow embedding of the snake-game core in `src/snake.js`: entity state,
`initGame`, `restartGame`, `togglePause`, `placeFood`, `setDirection`,
`update` and the fixed-timestep scheduler `gameLoop`.

Modelling conventions:
* Grid cells and direction vectors are `{x, y}` pairs of integers (`V2`),
  as in the source, where a new head may step outside the grid.
* `COLS` and `ROWS` are the grid dimensions computed once at startup from
  the canvas size; they are parameters of every definition that uses them.
* `Math.random()`-driven food placement is determinised by an oracle:
  `placeFood` takes a stream `cands : ℕ → V2` of candidate cells (the
  successive samples `(Math.floor(random*COLS), Math.floor(random*ROWS))`)
  and a fuel bound for its do/while rejection loop; `update` and `initGame`
  take the cell the embedded `placeFood` call would produce.
* Times (`performance.now()` values, accumulator residues) are rationals.
-/

namespace Snake

/-- An `{x, y}` pair of integers: a grid cell or a direction vector. -/
structure V2 where
  x : ℤ
  y : ℤ
deriving DecidableEq

/-- The module-level mutable state of `src/snake.js`: snake body (head
first), current and queued direction, food cell (`null` before the first
placement), score, lifecycle flags, and the scheduler's accumulator and
last-frame timestamp. -/
structure GameState where
  snake : List V2
  dir : V2
  nextDir : V2
  food : Option V2
  score : ℕ
  running : Bool
  paused : Bool
  gameOver : Bool
  accumulator : ℚ
  lastTime : ℚ
deriving DecidableEq

/-- `SPEED = 8` simulation ticks per second. -/
def SPEED : ℚ := 8

/-- The fixed timestep `step = 1 / SPEED` seconds used by `gameLoop`. -/
def step : ℚ := 1 / SPEED

variable (COLS ROWS : ℤ)

/-- Membership in the grid `[0, COLS) × [0, ROWS)`. -/
def inGrid (c : V2) : Prop :=
  0 ≤ c.x ∧ c.x < COLS ∧ 0 ≤ c.y ∧ c.y < ROWS

instance (c : V2) : Decidable (inGrid COLS ROWS c) := by
  unfold inGrid
  infer_instance

/-- The do/while rejection loop of `placeFood()`: starting from sample
index `i`, keep drawing candidate cells while the candidate is occupied.
The source loop is unbounded; `fuel` bounds the number of samples examined,
with `none` meaning the loop has not terminated within `fuel` samples. -/
def placeFoodLoop (occupied : List V2) (cands : ℕ → V2) : ℕ → ℕ → Option V2
  | 0, _ => none
  | fuel + 1, i =>
      if cands i ∈ occupied then placeFoodLoop occupied cands fuel (i + 1)
      else some (cands i)

/-- `placeFood()`: builds the occupied set from the snake, rejection-samples
an unoccupied cell, and assigns it to `food`. Returns `none` when the loop
does not terminate within `fuel` samples. -/
def placeFood (cands : ℕ → V2) (fuel : ℕ) (s : GameState) : Option GameState :=
  match placeFoodLoop s.snake cands fuel 0 with
  | none => none
  | some c => some { s with food := some c }

/-- The initial 3-segment snake of `initGame()`, centered in the grid,
horizontally laid out, head first. -/
def initSnake : List V2 :=
  [⟨COLS / 2 - 1, ROWS / 2⟩, ⟨COLS / 2 - 2, ROWS / 2⟩, ⟨COLS / 2 - 3, ROWS / 2⟩]

/-- `initGame()`: fresh snake, direction `(1,0)` current and queued,
score 0, flags cleared, food placed (`f` is the cell the `placeFood()`
call returns), `running = true`, accumulator reset, `lastTime` set to the
current timestamp `now`. -/
def initGame (f : V2) (now : ℚ) : GameState :=
  { snake := initSnake COLS ROWS
    dir := ⟨1, 0⟩
    nextDir := ⟨1, 0⟩
    food := some f
    score := 0
    running := true
    paused := false
    gameOver := false
    accumulator := 0
    lastTime := now }

/-- `restartGame()`: re-invokes `initGame()` unconditionally. -/
def restartGame (f : V2) (now : ℚ) : GameState :=
  initGame COLS ROWS f now

/-- `togglePause()`: no-op if `gameOver`; otherwise flips `paused`, and on
the transition to unpaused resets `lastTime` to the current timestamp
`now` (the source also re-requests an animation frame, which is host-side
scheduling with no further state effect). -/
def togglePause (now : ℚ) (s : GameState) : GameState :=
  if s.gameOver then s
  else if s.paused then { s with paused := false, lastTime := now }
  else { s with paused := true }

/-- The four direction intents recognised by `setDirection`. -/
inductive Action where
  | up
  | down
  | left
  | right
deriving DecidableEq

/-- The `map` table of `setDirection`: intent to unit vector. -/
def actionVec : Action → V2
  | .up => ⟨0, -1⟩
  | .down => ⟨0, 1⟩
  | .left => ⟨-1, 0⟩
  | .right => ⟨1, 0⟩

/-- `setDirection(action)`: rejected (no state change) when the requested
vector is the exact inverse of the current direction `dir`; otherwise
overwrites the queued direction `nextDir`. -/
def setDirection (a : Action) (s : GameState) : GameState :=
  let nd := actionVec a
  if nd.x = -s.dir.x ∧ nd.y = -s.dir.y then s
  else { s with nextDir := nd }

/-- `update()`: one simulation tick. No-op unless running, unpaused and
not over. Commits the queued direction, computes the new head, checks wall
then self collision (both against the full pre-move snake and both
terminal), then prepends the new head; eating food increments the score
and replaces the food (`f` is the cell the inner `placeFood()` call
returns) keeping the tail, otherwise the tail is popped. The source reads
`snake[0]`, so a non-empty snake is a precondition; it holds in every
reachable state, and on `[]` the model is the identity. -/
def update (f : V2) (s : GameState) : GameState :=
  if !s.running || s.paused || s.gameOver then s
  else
    match s.snake with
    | [] => s
    | head :: _ =>
        let d := s.nextDir
        let newHead : V2 := ⟨head.x + d.x, head.y + d.y⟩
        if newHead.x < 0 ∨ COLS ≤ newHead.x ∨ newHead.y < 0 ∨ ROWS ≤ newHead.y then
          { s with dir := d, gameOver := true, running := false }
        else if newHead ∈ s.snake then
          { s with dir := d, gameOver := true, running := false }
        else if s.food = some newHead then
          { s with dir := d, snake := newHead :: s.snake, score := s.score + 1,
                   food := some f }
        else
          { s with dir := d, snake := (newHead :: s.snake).dropLast }

/-- The tick-draining while loop of `gameLoop`: while `accumulator ≥ step`,
run `update()` (tick `n` consumes food-oracle cell `fs n`) and subtract
`step`. `fuel` bounds the iterations; `gameLoop` passes exactly the number
the loop performs, so the bounded loop coincides with the source loop. -/
def drainTicks (fs : ℕ → V2) : ℕ → GameState → GameState
  | 0, s => s
  | n + 1, s =>
      if step ≤ s.accumulator then
        drainTicks fs n
          { update COLS ROWS (fs n) s with accumulator := s.accumulator - step }
      else s

/-- The exact iteration count of the draining loop started at residue
`acc`: `⌊acc / step⌋₊` (zero when `acc` is negative, as the loop guard
fails immediately). -/
def fuelFor (acc : ℚ) : ℕ := ⌊acc / step⌋₊

/-- `gameLoop(time)`: nothing if not running; if paused only renders;
otherwise computes `dt = (time - lastTime) / 1000` seconds, advances
`lastTime`, adds `dt` to the accumulator and drains whole ticks. Rendering
and re-scheduling have no state effect and are omitted. -/
def gameLoop (fs : ℕ → V2) (time : ℚ) (s : GameState) : GameState :=
  if !s.running then s
  else if s.paused then s
  else
    let s1 := { s with lastTime := time,
                       accumulator := s.accumulator + (time - s.lastTime) / 1000 }
    drainTicks COLS ROWS fs (fuelFor s1.accumulator) s1

/-- States reachable from `initGame()` through the public operations. A
successful `placeFood()` (standalone, inside `initGame`, or inside
`update` when food is eaten) returns a cell outside the snake as it then
stands — `placeFood_frame` below proves this of the embedded loop — so
each constructor carries that fact about its food-oracle cell. -/
inductive Reachable : GameState → Prop where
  | init (f : V2) (now : ℚ) (hf : f ∉ initSnake COLS ROWS) :
      Reachable (initGame COLS ROWS f now)
  | upd (s : GameState) (f : V2) (hs : Reachable s)
      (hf : f ∉ (update COLS ROWS f s).snake) :
      Reachable (update COLS ROWS f s)
  | setDir (s : GameState) (a : Action) (hs : Reachable s) :
      Reachable (setDirection a s)
  | pause (s : GameState) (now : ℚ) (hs : Reachable s) :
      Reachable (togglePause now s)
  | restart (s : GameState) (f : V2) (now : ℚ) (hs : Reachable s)
      (hf : f ∉ initSnake COLS ROWS) :
      Reachable (restartGame COLS ROWS f now)
  | food (s : GameState) (f : V2) (hs : Reachable s) (hf : f ∉ s.snake) :
      Reachable { s with food := some f }

/-! ## Helper lemmas -/

theorem step_pos : (0 : ℚ) < step := by norm_num [step, SPEED]

theorem placeFoodLoop_not_mem (occupied : List V2) (cands : ℕ → V2) :
    ∀ fuel i c, placeFoodLoop occupied cands fuel i = some c → c ∉ occupied := by
  intro fuel
  induction fuel with
  | zero => intro i c h; simp [placeFoodLoop] at h
  | succ n ih =>
      intro i c h
      unfold placeFoodLoop at h
      split at h
      · exact ih (i + 1) c h
      · cases h
        assumption

theorem placeFoodLoop_finds (occupied : List V2) (cands : ℕ → V2) :
    ∀ k i, cands (i + k) ∉ occupied →
      ∃ c, placeFoodLoop occupied cands (k + 1) i = some c := by
  intro k
  induction k with
  | zero =>
      intro i h
      refine ⟨cands i, ?_⟩
      simp only [Nat.add_zero] at h
      simp [placeFoodLoop, h]
  | succ n ih =>
      intro i h
      by_cases hi : cands i ∈ occupied
      · have hnext : cands ((i + 1) + n) ∉ occupied := by
          have heq : (i + 1) + n = i + (n + 1) := by omega
          rw [heq]
          exact h
        obtain ⟨c, hc⟩ := ih (i + 1) hnext
        refine ⟨c, ?_⟩
        unfold placeFoodLoop
        rw [if_pos hi]
        exact hc
      · refine ⟨cands i, ?_⟩
        unfold placeFoodLoop
        rw [if_neg hi]

/-! ## Claim theorems -/

/-- C5: for every current direction `D` and every requested direction `R`
in {up, down, left, right}, if the unit vector of `R` is the exact inverse
of the current (not the queued) direction, then `setDirection(R)` leaves
the whole state — in particular both the current and the queued direction —
unchanged. As the state `s` is arbitrary, this applies to every such call
in any sequence of direction intents arriving between two ticks. -/
theorem setDirection_reverse_rejected (a : Action) (s : GameState)
    (h : actionVec a = ⟨-s.dir.x, -s.dir.y⟩) :
    setDirection a s = s ∧ (setDirection a s).dir = s.dir ∧
      (setDirection a s).nextDir = s.nextDir := by
  have hx : (actionVec a).x = -s.dir.x := by rw [h]
  have hy : (actionVec a).y = -s.dir.y := by rw [h]
  unfold setDirection
  simp [hx, hy]

theorem setDirection_reverse_rejected_witness :
    setDirection .left (initGame 30 30 ⟨0, 0⟩ 0) = initGame 30 30 ⟨0, 0⟩ 0 :=
  (setDirection_reverse_rejected .left (initGame 30 30 ⟨0, 0⟩ 0) (by decide)).1

/-- C6: whenever `placeFood()` returns, the food cell differs from every
snake segment's cell, and no state component other than `food` has
changed: snake, score, both directions, the three flags, the accumulator
and the clock reference are exactly as before the call. -/
theorem placeFood_frame (cands : ℕ → V2) (fuel : ℕ) (s s' : GameState)
    (h : placeFood cands fuel s = some s') :
    (∀ c, c ∈ s.snake → s'.food ≠ some c) ∧
    s'.snake = s.snake ∧ s'.dir = s.dir ∧ s'.nextDir = s.nextDir ∧
    s'.score = s.score ∧ s'.running = s.running ∧ s'.paused = s.paused ∧
    s'.gameOver = s.gameOver ∧ s'.accumulator = s.accumulator ∧
    s'.lastTime = s.lastTime := by
  unfold placeFood at h
  split at h
  · cases h
  · rename_i c hc
    cases h
    have hnm := placeFoodLoop_not_mem s.snake cands fuel 0 c hc
    refine ⟨?_, rfl, rfl, rfl, rfl, rfl, rfl, rfl, rfl, rfl⟩
    intro d hd heq
    exact hnm (by cases heq; exact hd)

theorem placeFood_frame_witness :
    placeFood (fun _ => ⟨1, 1⟩) 1 (initGame 4 4 ⟨0, 0⟩ 0) =
      some { initGame 4 4 ⟨0, 0⟩ 0 with food := some ⟨1, 1⟩ } ∧
    ∀ c, c ∈ (initGame 4 4 ⟨0, 0⟩ 0).snake →
      ({ initGame 4 4 ⟨0, 0⟩ 0 with food := some ⟨1, 1⟩ } : GameState).food ≠ some c :=
  ⟨by decide,
   (placeFood_frame (fun _ => ⟨1, 1⟩) 1 (initGame 4 4 ⟨0, 0⟩ 0)
      { initGame 4 4 ⟨0, 0⟩ 0 with food := some ⟨1, 1⟩ } (by decide)).1⟩

/-- C7: `placeFood()` terminates whenever some grid cell is free of the
snake — under the fairness property of the uniform random sampler that
every grid cell eventually appears in the candidate stream — and if the
snake occupies every grid cell the rejection loop runs forever (every fuel
bound is exhausted), since every sample `(Math.floor(random*COLS),
Math.floor(random*ROWS))` lies in the grid. -/
theorem placeFood_termination (cands : ℕ → V2) (s : GameState) :
    ((∀ c, inGrid COLS ROWS c → ∃ n, cands n = c) →
      (∃ c, inGrid COLS ROWS c ∧ c ∉ s.snake) →
      ∃ fuel s', placeFood cands fuel s = some s') ∧
    ((∀ c, inGrid COLS ROWS c → c ∈ s.snake) →
      (∀ n, inGrid COLS ROWS (cands n)) →
      ∀ fuel, placeFood cands fuel s = none) := by
  constructor
  · intro hfair hfree
    obtain ⟨c, hc, hcs⟩ := hfree
    obtain ⟨n, hn⟩ := hfair c hc
    have : cands (0 + n) ∉ s.snake := by
      simpa [hn] using hcs
    obtain ⟨d, hd⟩ := placeFoodLoop_finds s.snake cands n 0 this
    exact ⟨n + 1, { s with food := some d }, by simp [placeFood, hd]⟩
  · intro hfull hcand fuel
    have hloop : ∀ fl i, placeFoodLoop s.snake cands fl i = none := by
      intro fl
      induction fl with
      | zero => intro i; rfl
      | succ m ih =>
          intro i
          have : cands i ∈ s.snake := hfull (cands i) (hcand i)
          simp [placeFoodLoop, this, ih]
    simp [placeFood, hloop]

theorem placeFood_termination_witness :
    (∃ fuel s', placeFood (fun n => ⟨(n : ℤ) % 2, 0⟩) fuel
        { initGame 2 1 ⟨1, 0⟩ 0 with snake := [⟨0, 0⟩] } = some s') ∧
    (∀ fuel, placeFood (fun _ => (⟨0, 0⟩ : V2)) fuel
        { initGame 1 1 ⟨0, 0⟩ 0 with snake := [⟨0, 0⟩] } = none) := by
  constructor
  · refine (placeFood_termination 2 1 (fun n => ⟨(n : ℤ) % 2, 0⟩)
      { initGame 2 1 ⟨1, 0⟩ 0 with snake := [⟨0, 0⟩] }).1 ?_ ?_
    · rintro ⟨x, y⟩ ⟨hx0, hx2, hy0, hy1⟩
      dsimp only at hx0 hx2 hy0 hy1
      refine ⟨x.toNat, ?_⟩
      show (⟨(x.toNat : ℤ) % 2, 0⟩ : V2) = ⟨x, y⟩
      have hx : (x.toNat : ℤ) % 2 = x := by omega
      have hy : y = 0 := by omega
      rw [V2.mk.injEq]
      exact ⟨hx, hy.symm⟩
    · exact ⟨⟨1, 0⟩, by decide, by decide⟩
  · refine (placeFood_termination 1 1 (fun _ => (⟨0, 0⟩ : V2))
      { initGame 1 1 ⟨0, 0⟩ 0 with snake := [⟨0, 0⟩] }).2 ?_ (fun _ => by decide)
    rintro ⟨x, y⟩ ⟨hx0, hx1, hy0, hy1⟩
    dsimp only at hx0 hx1 hy0 hy1
    have hx : x = 0 := by omega
    have hy : y = 0 := by omega
    subst hx
    subst hy
    decide

/-- C8: for every non-gameOver state, two `togglePause()` calls in
succession (timestamps `now1`, `now2`, no intervening tick) return the
`paused` flag to its original value; and when the pair started unpaused
(so the second call is the resume), the resulting state is the original
one with only the clock reference moved to `now2` — the accumulator and
all other fields are untouched, so the next frame's tick count is computed
from `time - now2` alone and no ticks skipped while paused are replayed. -/
theorem togglePause_twice (s : GameState) (now1 now2 : ℚ)
    (hg : s.gameOver = false) :
    (togglePause now2 (togglePause now1 s)).paused = s.paused ∧
    (s.paused = false →
      togglePause now2 (togglePause now1 s) = { s with lastTime := now2 }) := by
  obtain ⟨sn, d, nd, fo, sc, ru, pa, go, acc, lt⟩ := s
  simp only at hg
  subst hg
  cases pa <;> simp [togglePause]

theorem togglePause_twice_witness :
    (togglePause 7 (togglePause 5 (initGame 30 30 ⟨0, 0⟩ 0))).paused =
      (initGame 30 30 ⟨0, 0⟩ 0).paused ∧
    togglePause 7 (togglePause 5 (initGame 30 30 ⟨0, 0⟩ 0)) =
      { initGame 30 30 ⟨0, 0⟩ 0 with lastTime := 7 } :=
  ⟨(togglePause_twice (initGame 30 30 ⟨0, 0⟩ 0) 5 7 rfl).1,
   (togglePause_twice (initGame 30 30 ⟨0, 0⟩ 0) 5 7 rfl).2 rfl⟩

/-- C2: in a running, unpaused, non-gameOver state whose new head (head
plus the committed direction, i.e. the queued direction `nextDir` that
`update()` commits before moving) lies outside `[0, COLS) × [0, ROWS)`,
one `update()` call sets `gameOver = true` and `running = false` and
leaves the snake, the score and the food exactly as they were just before
the call — in particular the new head is not added. -/
theorem wall_collision_terminal (f : V2) (s : GameState) (head : V2) (rest : List V2)
    (hrun : s.running = true) (hp : s.paused = false) (hg : s.gameOver = false)
    (hsnake : s.snake = head :: rest)
    (hwall : head.x + s.nextDir.x < 0 ∨ COLS ≤ head.x + s.nextDir.x ∨
      head.y + s.nextDir.y < 0 ∨ ROWS ≤ head.y + s.nextDir.y) :
    (update COLS ROWS f s).gameOver = true ∧ (update COLS ROWS f s).running = false ∧
    (update COLS ROWS f s).snake = s.snake ∧ (update COLS ROWS f s).score = s.score ∧
    (update COLS ROWS f s).food = s.food := by
  simp only [update, hrun, hp, hg, hsnake, Bool.not_true, Bool.false_or, Bool.or_self,
    Bool.false_eq_true, if_false]
  rw [if_pos hwall]
  exact ⟨rfl, rfl, rfl, rfl, rfl⟩

theorem wall_collision_terminal_witness :
    (update 30 30 ⟨9, 9⟩ { initGame 30 30 ⟨9, 9⟩ 0 with
        snake := [⟨0, 5⟩], dir := ⟨-1, 0⟩, nextDir := ⟨-1, 0⟩ }).gameOver = true ∧
    (update 30 30 ⟨9, 9⟩ { initGame 30 30 ⟨9, 9⟩ 0 with
        snake := [⟨0, 5⟩], dir := ⟨-1, 0⟩, nextDir := ⟨-1, 0⟩ }).running = false ∧
    (update 30 30 ⟨9, 9⟩ { initGame 30 30 ⟨9, 9⟩ 0 with
        snake := [⟨0, 5⟩], dir := ⟨-1, 0⟩, nextDir := ⟨-1, 0⟩ }).snake =
      ({ initGame 30 30 ⟨9, 9⟩ 0 with
        snake := [⟨0, 5⟩], dir := ⟨-1, 0⟩, nextDir := ⟨-1, 0⟩ } : GameState).snake ∧
    (update 30 30 ⟨9, 9⟩ { initGame 30 30 ⟨9, 9⟩ 0 with
        snake := [⟨0, 5⟩], dir := ⟨-1, 0⟩, nextDir := ⟨-1, 0⟩ }).score =
      ({ initGame 30 30 ⟨9, 9⟩ 0 with
        snake := [⟨0, 5⟩], dir := ⟨-1, 0⟩, nextDir := ⟨-1, 0⟩ } : GameState).score ∧
    (update 30 30 ⟨9, 9⟩ { initGame 30 30 ⟨9, 9⟩ 0 with
        snake := [⟨0, 5⟩], dir := ⟨-1, 0⟩, nextDir := ⟨-1, 0⟩ }).food =
      ({ initGame 30 30 ⟨9, 9⟩ 0 with
        snake := [⟨0, 5⟩], dir := ⟨-1, 0⟩, nextDir := ⟨-1, 0⟩ } : GameState).food :=
  wall_collision_terminal 30 30 ⟨9, 9⟩ _ ⟨0, 5⟩ [] rfl rfl rfl rfl (by decide)

/-- C3: in a running, unpaused, non-gameOver state where the new head
(head plus the committed direction) is inside the grid, on no snake
segment, and equal to the food cell, one `update()` call yields the snake
with the new head prepended to the entire previous snake — so length grows
by exactly 1, every previous segment survives in the same relative order
(the old snake is a sublist of the new one) — and the score grows by
exactly 1. -/
theorem eat_food_grows (f : V2) (s : GameState) (head : V2) (rest : List V2)
    (hrun : s.running = true) (hp : s.paused = false) (hg : s.gameOver = false)
    (hsnake : s.snake = head :: rest)
    (hin : inGrid COLS ROWS ⟨head.x + s.nextDir.x, head.y + s.nextDir.y⟩)
    (hself : (⟨head.x + s.nextDir.x, head.y + s.nextDir.y⟩ : V2) ∉ s.snake)
    (hfood : s.food = some ⟨head.x + s.nextDir.x, head.y + s.nextDir.y⟩) :
    (update COLS ROWS f s).snake =
      (⟨head.x + s.nextDir.x, head.y + s.nextDir.y⟩ : V2) :: s.snake ∧
    (update COLS ROWS f s).snake.length = s.snake.length + 1 ∧
    (update COLS ROWS f s).score = s.score + 1 ∧
    List.Sublist s.snake (update COLS ROWS f s).snake := by
  obtain ⟨hx0, hx1, hy0, hy1⟩ := hin
  have hwall : ¬(head.x + s.nextDir.x < 0 ∨ COLS ≤ head.x + s.nextDir.x ∨
      head.y + s.nextDir.y < 0 ∨ ROWS ≤ head.y + s.nextDir.y) := by
    push_neg
    exact ⟨hx0, hx1, hy0, hy1⟩
  simp only [update, hrun, hp, hg, hsnake, Bool.not_true, Bool.false_or, Bool.or_self,
    Bool.false_eq_true, if_false]
  rw [if_neg hwall, if_neg (hsnake ▸ hself), if_pos hfood]
  exact ⟨rfl, rfl, rfl, List.sublist_cons_self _ _⟩

theorem eat_food_grows_witness :
    (update 30 30 ⟨9, 9⟩ { initGame 30 30 ⟨15, 15⟩ 0 with
        snake := [⟨14, 15⟩, ⟨13, 15⟩, ⟨12, 15⟩] }).snake =
      (⟨15, 15⟩ : V2) :: [⟨14, 15⟩, ⟨13, 15⟩, ⟨12, 15⟩] ∧
    (update 30 30 ⟨9, 9⟩ { initGame 30 30 ⟨15, 15⟩ 0 with
        snake := [⟨14, 15⟩, ⟨13, 15⟩, ⟨12, 15⟩] }).score = 0 + 1 := by
  have h := eat_food_grows 30 30 ⟨9, 9⟩
    { initGame 30 30 ⟨15, 15⟩ 0 with snake := [⟨14, 15⟩, ⟨13, 15⟩, ⟨12, 15⟩] }
    ⟨14, 15⟩ [⟨13, 15⟩, ⟨12, 15⟩] rfl rfl rfl rfl (by decide) (by decide) (by decide)
  exact ⟨h.1, h.2.2.1⟩

/-- C10: in a running, unpaused, non-gameOver state, a tick whose new head
equals the cell of the snake's last segment (its tail) terminates the game
— `gameOver = true`, `running = false`, snake untouched — even though that
cell would have been vacated by the tail pop of the same tick, because
`update()` checks self-collision against the full snake before popping the
tail. (When the tail cell is outside the grid the wall check fires first
with the same terminal effect.) -/
theorem tail_collision_terminal (f : V2) (s : GameState) (head : V2) (rest : List V2)
    (hrun : s.running = true) (hp : s.paused = false) (hg : s.gameOver = false)
    (hsnake : s.snake = head :: rest)
    (htail : s.snake.getLast? =
      some ⟨head.x + s.nextDir.x, head.y + s.nextDir.y⟩) :
    (update COLS ROWS f s).gameOver = true ∧ (update COLS ROWS f s).running = false ∧
    (update COLS ROWS f s).snake = s.snake := by
  have hmem : (⟨head.x + s.nextDir.x, head.y + s.nextDir.y⟩ : V2) ∈ s.snake := by
    obtain ⟨hne, heq⟩ := List.mem_getLast?_eq_getLast (Option.mem_def.mpr htail)
    rw [heq]
    exact List.getLast_mem hne
  simp only [update, hrun, hp, hg, hsnake, Bool.not_true, Bool.false_or, Bool.or_self,
    Bool.false_eq_true, if_false]
  by_cases hwall : head.x + s.nextDir.x < 0 ∨ COLS ≤ head.x + s.nextDir.x ∨
      head.y + s.nextDir.y < 0 ∨ ROWS ≤ head.y + s.nextDir.y
  · rw [if_pos hwall]
    exact ⟨rfl, rfl, rfl⟩
  · rw [if_neg hwall, if_pos (hsnake ▸ hmem)]
    exact ⟨rfl, rfl, rfl⟩

theorem tail_collision_terminal_witness :
    (update 30 30 ⟨9, 9⟩ { initGame 30 30 ⟨9, 9⟩ 0 with
        snake := [⟨1, 0⟩, ⟨0, 0⟩, ⟨0, 1⟩, ⟨1, 1⟩], nextDir := ⟨0, 1⟩ }).gameOver = true ∧
    (update 30 30 ⟨9, 9⟩ { initGame 30 30 ⟨9, 9⟩ 0 with
        snake := [⟨1, 0⟩, ⟨0, 0⟩, ⟨0, 1⟩, ⟨1, 1⟩], nextDir := ⟨0, 1⟩ }).running = false ∧
    (update 30 30 ⟨9, 9⟩ { initGame 30 30 ⟨9, 9⟩ 0 with
        snake := [⟨1, 0⟩, ⟨0, 0⟩, ⟨0, 1⟩, ⟨1, 1⟩], nextDir := ⟨0, 1⟩ }).snake =
      ({ initGame 30 30 ⟨9, 9⟩ 0 with
        snake := [⟨1, 0⟩, ⟨0, 0⟩, ⟨0, 1⟩, ⟨1, 1⟩], nextDir := ⟨0, 1⟩ } : GameState).snake :=
  tail_collision_terminal 30 30 ⟨9, 9⟩ _ ⟨1, 0⟩ [⟨0, 0⟩, ⟨0, 1⟩, ⟨1, 1⟩]
    rfl rfl rfl rfl (by decide)

theorem drainTicks_acc_nonneg (fs : ℕ → V2) :
    ∀ (fuel : ℕ) (s : GameState), 0 ≤ s.accumulator →
      0 ≤ (drainTicks COLS ROWS fs fuel s).accumulator := by
  intro fuel
  induction fuel with
  | zero => intro s h; exact h
  | succ n ih =>
      intro s h
      unfold drainTicks
      split
      · rename_i hge
        apply ih
        show (0 : ℚ) ≤ s.accumulator - step
        have := step_pos
        linarith
      · exact h

theorem drainTicks_acc_lt (fs : ℕ → V2) :
    ∀ (fuel : ℕ) (s : GameState), fuelFor s.accumulator ≤ fuel →
      (drainTicks COLS ROWS fs fuel s).accumulator < step := by
  intro fuel
  induction fuel with
  | zero =>
      intro s h
      have h0 : ⌊s.accumulator / step⌋₊ = 0 := Nat.le_zero.mp h
      have := (Nat.floor_eq_zero.mp h0)
      calc s.accumulator = s.accumulator / step * step :=
            (div_mul_cancel₀ s.accumulator step_pos.ne').symm
        _ < 1 * step := mul_lt_mul_of_pos_right this step_pos
        _ = step := one_mul step
  | succ n ih =>
      intro s h
      unfold drainTicks
      split
      · rename_i hge
        apply ih
        show fuelFor (s.accumulator - step) ≤ n
        have hdiv : (s.accumulator - step) / step = s.accumulator / step - 1 := by
          rw [sub_div, div_self step_pos.ne']
        unfold fuelFor at h ⊢
        rw [hdiv]
        have hsub : ⌊s.accumulator / step - (1 : ℕ)⌋₊ = ⌊s.accumulator / step⌋₊ - 1 :=
          Nat.floor_sub_nat (s.accumulator / step) 1
        rw [Nat.cast_one] at hsub
        rw [hsub]
        omega
      · rename_i hlt
        push_neg at hlt
        exact hlt

/-- C4 (amended): the accumulator is `0` immediately after `initGame()` /
`restartGame()`, and a `gameLoop(time)` invocation whose timestamp is at
least the stored `lastTime` carries an accumulator in `[0, step)` back
into `[0, step)`. The source does not clamp a negative `dt`, so for a
timestamp earlier than `lastTime` the claim fails (see the
counterexample): monotone timestamps are required. -/
theorem gameLoop_acc_in_range (f : V2) (now : ℚ) (fs : ℕ → V2) (time : ℚ)
    (s : GameState) :
    (initGame COLS ROWS f now).accumulator = 0 ∧
    (restartGame COLS ROWS f now).accumulator = 0 ∧
    (0 ≤ s.accumulator → s.accumulator < step → s.lastTime ≤ time →
      0 ≤ (gameLoop COLS ROWS fs time s).accumulator ∧
        (gameLoop COLS ROWS fs time s).accumulator < step) := by
  refine ⟨rfl, rfl, ?_⟩
  intro h0 hlt hmono
  unfold gameLoop
  split
  · exact ⟨h0, hlt⟩
  · split
    · exact ⟨h0, hlt⟩
    · have hacc : (0 : ℚ) ≤ s.accumulator + (time - s.lastTime) / 1000 := by
        have : (0 : ℚ) ≤ (time - s.lastTime) / 1000 := by
          apply div_nonneg
          · linarith
          · norm_num
        linarith
      constructor
      · exact drainTicks_acc_nonneg COLS ROWS fs _ _ hacc
      · exact drainTicks_acc_lt COLS ROWS fs _ _ le_rfl

theorem gameLoop_acc_in_range_witness :
    0 ≤ (gameLoop 30 30 (fun _ => (⟨0, 0⟩ : V2)) 1 (initGame 30 30 ⟨0, 0⟩ 0)).accumulator ∧
    (gameLoop 30 30 (fun _ => (⟨0, 0⟩ : V2)) 1 (initGame 30 30 ⟨0, 0⟩ 0)).accumulator < step :=
  (gameLoop_acc_in_range 30 30 ⟨0, 0⟩ 0 (fun _ => (⟨0, 0⟩ : V2)) 1
      (initGame 30 30 ⟨0, 0⟩ 0)).2.2
    le_rfl (by norm_num [initGame, step, SPEED]) (by norm_num [initGame])

/-- C4 (counterexample to the claim as stated): a `gameLoop(time)` call
whose timestamp is earlier than the stored `lastTime` leaves the
accumulator negative — here `initGame` at clock 1000 followed by
`gameLoop(0)` puts `dt = -1` into the accumulator and the drain loop never
runs — so the accumulator is not always in `[0, step)` for arbitrary
timestamps. -/
theorem gameLoop_acc_negative_cex :
    (gameLoop 30 30 (fun _ => (⟨0, 0⟩ : V2)) 0
        (initGame 30 30 ⟨0, 0⟩ 1000)).accumulator < 0 := by
  have hfuel : fuelFor ((0 : ℚ) + (0 - 1000) / 1000) = 0 := by
    have hacc : (0 : ℚ) + (0 - 1000) / 1000 = -1 := by norm_num
    rw [hacc]
    unfold fuelFor
    apply Nat.floor_of_nonpos
    norm_num [step, SPEED]
  rw [show gameLoop 30 30 (fun _ => (⟨0, 0⟩ : V2)) 0 (initGame 30 30 ⟨0, 0⟩ 1000) =
      drainTicks 30 30 (fun _ => (⟨0, 0⟩ : V2)) (fuelFor ((0 : ℚ) + (0 - 1000) / 1000))
        { initGame 30 30 ⟨0, 0⟩ 1000 with
          lastTime := 0
          accumulator := (0 : ℚ) + (0 - 1000) / 1000 } from rfl, hfuel]
  show (0 : ℚ) + (0 - 1000) / 1000 < 0
  norm_num

theorem initGame_inv (f : V2) (now : ℚ) :
    (initGame COLS ROWS f now).snake ≠ [] ∧ (initGame COLS ROWS f now).snake.Nodup ∧
      (initGame COLS ROWS f now).snake.length = (initGame COLS ROWS f now).score + 3 := by
  refine ⟨?_, ?_, ?_⟩
  · simp [initGame, initSnake]
  · simp only [initGame, initSnake]
    refine List.nodup_cons.mpr ⟨?_, List.nodup_cons.mpr ⟨?_, List.nodup_singleton _⟩⟩
    · intro hmem
      simp only [List.mem_cons, List.mem_singleton, List.not_mem_nil, V2.mk.injEq] at hmem
      rcases hmem with h | h | h
      · omega
      · omega
      · exact h
    · intro hmem
      simp only [List.mem_cons, List.mem_singleton, List.not_mem_nil, V2.mk.injEq] at hmem
      rcases hmem with h | h
      · omega
      · exact h
  · simp [initGame, initSnake]

theorem update_preserves_inv (f : V2) (s : GameState)
    (h1 : s.snake ≠ []) (h2 : s.snake.Nodup) (h3 : s.snake.length = s.score + 3) :
    (update COLS ROWS f s).snake ≠ [] ∧ (update COLS ROWS f s).snake.Nodup ∧
      (update COLS ROWS f s).snake.length = (update COLS ROWS f s).score + 3 := by
  obtain ⟨head, rest, hsnake⟩ := List.exists_cons_of_ne_nil h1
  by_cases hactive : (!s.running || s.paused || s.gameOver) = true
  · simp only [update, if_pos hactive]
    exact ⟨h1, h2, h3⟩
  · simp only [update, if_neg hactive, hsnake]
    by_cases hwall : head.x + s.nextDir.x < 0 ∨ COLS ≤ head.x + s.nextDir.x ∨
        head.y + s.nextDir.y < 0 ∨ ROWS ≤ head.y + s.nextDir.y
    · rw [if_pos hwall]
      exact ⟨List.cons_ne_nil _ _, hsnake ▸ h2, hsnake ▸ h3⟩
    · rw [if_neg hwall]
      by_cases hself : (⟨head.x + s.nextDir.x, head.y + s.nextDir.y⟩ : V2) ∈ head :: rest
      · rw [if_pos hself]
        exact ⟨List.cons_ne_nil _ _, hsnake ▸ h2, hsnake ▸ h3⟩
      · rw [if_neg hself]
        have hnodup : ((⟨head.x + s.nextDir.x, head.y + s.nextDir.y⟩ : V2) ::
            head :: rest).Nodup :=
          List.nodup_cons.mpr ⟨hself, hsnake ▸ h2⟩
        have hlen : (head :: rest).length = s.score + 3 := hsnake ▸ h3
        simp only [List.length_cons] at hlen
        by_cases hfood : s.food = some ⟨head.x + s.nextDir.x, head.y + s.nextDir.y⟩
        · rw [if_pos hfood]
          refine ⟨List.cons_ne_nil _ _, hnodup, ?_⟩
          simp only [List.length_cons]
          omega
        · rw [if_neg hfood]
          refine ⟨?_, ?_, ?_⟩
          · rw [List.dropLast_cons₂]
            exact List.cons_ne_nil _ _
          · exact List.Nodup.sublist (List.dropLast_sublist _) hnodup
          · simp only [List.length_dropLast, List.length_cons]
            omega

theorem reachable_inv (s : GameState) (h : Reachable COLS ROWS s) :
    s.snake ≠ [] ∧ s.snake.Nodup ∧ s.snake.length = s.score + 3 := by
  induction h with
  | init f now hf => exact initGame_inv COLS ROWS f now
  | upd s f hs hf ih => exact update_preserves_inv COLS ROWS f s ih.1 ih.2.1 ih.2.2
  | setDir s a hs ih =>
      unfold setDirection
      dsimp only
      split
      · exact ih
      · exact ih
  | pause s now hs ih =>
      unfold togglePause
      split
      · exact ih
      · split
        · exact ih
        · exact ih
  | restart s f now hs hf ih => exact initGame_inv COLS ROWS f now
  | food s f hs hf ih => exact ih

/-- C1: in every state reachable from `initGame()` by `update()`,
`setDirection()`, `togglePause()`, `restartGame()` and `placeFood()`
calls, while `gameOver` is false every pair of distinct indices of the
snake sequence refers to distinct cells: no two snake segments occupy the
same cell. (The invariant in fact holds for all reachable states, as a
terminal tick leaves the snake untouched.) -/
theorem snake_segments_distinct (s : GameState) (h : Reachable COLS ROWS s)
    (_hover : s.gameOver = false) :
    ∀ i j : Fin s.snake.length, i ≠ j → s.snake.get i ≠ s.snake.get j := by
  have hnd := (reachable_inv COLS ROWS s h).2.1
  intro i j hij heq
  exact hij (List.nodup_iff_injective_get.mp hnd heq)

theorem snake_segments_distinct_witness :
    (initGame 30 30 ⟨0, 0⟩ 0).snake.get ⟨0, by decide⟩ ≠
      (initGame 30 30 ⟨0, 0⟩ 0).snake.get ⟨1, by decide⟩ :=
  snake_segments_distinct 30 30 (initGame 30 30 ⟨0, 0⟩ 0)
    (Reachable.init ⟨0, 0⟩ 0 (by decide)) rfl ⟨0, by decide⟩ ⟨1, by decide⟩ (by decide)

/-- C9: in every state reachable from `initGame()` (the relation also
admits standalone `placeFood()` calls, which do not touch snake or score,
so it covers every sequence of `update()`, `setDirection()`,
`togglePause()` and `restartGame()` calls), the snake's length equals
`score + 3`: the initial length is 3 and exactly the score-incrementing
tick grows the snake. -/
theorem snake_length_eq_score_plus_three (s : GameState)
    (h : Reachable COLS ROWS s) : s.snake.length = s.score + 3 :=
  (reachable_inv COLS ROWS s h).2.2

theorem snake_length_eq_score_plus_three_witness :
    (initGame 30 30 ⟨0, 0⟩ 0).snake.length = (initGame 30 30 ⟨0, 0⟩ 0).score + 3 :=
  snake_length_eq_score_plus_three 30 30 (initGame 30 30 ⟨0, 0⟩ 0)
    (Reachable.init ⟨0, 0⟩ 0 (by decide))

end Snake
